import Mathlib

/-!
Verification development for the TCP relay (reverse proxy) in
`examples/minginx.rs`.

The relay code is:

  async fn main():
    bind listener at config.listen_addr (the `?` propagates a bind error);
    loop { let (client, addr) = listener.accept().await?;   -- `?` on accept
           info!("Accepted connection from {addr}");
           tokio::spawn(async move {
             let upstream = TcpStream::connect(upstream_addr).await?;
             proxy(client, upstream).await?;
             Ok(()) })                                      -- JoinHandle dropped

  async fn proxy(client, upstream):
    split both streams; let a = io::copy(client_read, upstream_write);
    let b = io::copy(upstream_read, client_write);
    match tokio::try_join!(a, b) { Ok((n,m)) => info!(...), Err(e) => warn!(...) }
    Ok(())

We embed this shallowly.  Machine-level I/O is represented by explicit
data: a reader is the sequence of chunks it will yield followed by how it
ends (clean EOF or an I/O error); a writer is a sink that records the
bytes written, whether it was flushed, and whether its write side was
shut down.  `tokio::io::copy` and `tokio::try_join!` are library
primitives used by the source; their semantics (documented by tokio) are
embedded directly: copy reads chunks until EOF or error, writes every
byte read, flushes on EOF, and never shuts the writer down; try_join
polls both branches concurrently, yields Ok of both values when both
succeed, and yields the first error as soon as one branch fails,
dropping (cancelling) the other branch at that point.
-/

deriving instance DecidableEq for Except

/-- Abstract I/O error codes (the payload of `std::io::Error` is opaque
to the relay, which only logs it). -/
abbrev IOErr := Nat

/-- Bytes are abstract. -/
abbrev Byte := Nat

/-- How a read half ends: clean end-of-stream, or an I/O error. -/
inductive Ending where
  | eof
  | err (e : IOErr)
deriving DecidableEq

/-- A read half of a TCP stream, as the data it will yield: the chunks
successive reads return, then how the stream ends. -/
structure Src where
  chunks : List (List Byte)
  ending : Ending
deriving DecidableEq

/-- A write half of a TCP stream: the bytes received so far, whether it
has been flushed, and whether its write side has been shut down
(TCP half-close, `shutdown(Write)`). -/
structure Dst where
  data : List Byte
  flushed : Bool
  writeClosed : Bool
deriving DecidableEq

/-- The write phase of `tokio::io::copy`: each chunk read from the
source is written, in order, to the destination.  Returns the number of
bytes written and the updated destination. -/
def writeChunks : List (List Byte) → Dst → Nat × Dst
  | [], d => (0, d)
  | c :: cs, d =>
      (c.length + (writeChunks cs { d with data := d.data ++ c }).1,
       (writeChunks cs { d with data := d.data ++ c }).2)

/-- `tokio::io::copy(src, dst)`: repeatedly read a chunk and write it,
until the source ends.  On clean EOF it flushes the destination and
returns the byte count; on a read error it returns that error.  It does
NOT call `shutdown` on the destination (tokio's copy never does). -/
def ioCopy (s : Src) (d : Dst) : Except IOErr Nat × Dst :=
  let r := writeChunks s.chunks d
  match s.ending with
  | Ending.eof => (Except.ok r.1, { r.2 with flushed := true })
  | Ending.err e => (Except.error e, r.2)

/-- One pump direction as seen by `try_join!`: the number of polls it
needs to finish, and its result (bytes copied, or the I/O error). -/
structure Pump where
  steps : Nat
  result : Except IOErr Nat
deriving DecidableEq

/-- The pump that `io::copy` on the given halves denotes, finishing
after `t` polls. -/
def pumpOfCopy (s : Src) (d : Dst) (t : Nat) : Pump :=
  { steps := t, result := (ioCopy s d).1 }

/-- Value of `tokio::try_join!(p, q)`: Ok of both results when both
branches succeed; otherwise the error of the branch that fails first. -/
def tryJoin (p q : Pump) : Except IOErr (Nat × Nat) :=
  match p.result, q.result with
  | Except.ok n, Except.ok m => Except.ok (n, m)
  | Except.error e, Except.ok _ => Except.error e
  | Except.ok _, Except.error e => Except.error e
  | Except.error e1, Except.error e2 =>
      if p.steps ≤ q.steps then Except.error e1 else Except.error e2

/-- The poll count at which `try_join!(p, q)` returns: when both
branches succeed it waits for both; as soon as a branch fails it
returns, dropping the other branch. -/
def joinTime (p q : Pump) : Nat :=
  match p.result, q.result with
  | Except.ok _, Except.ok _ => max p.steps q.steps
  | Except.error _, Except.ok _ => p.steps
  | Except.ok _, Except.error _ => q.steps
  | Except.error _, Except.error _ => min p.steps q.steps

/-- Whether a pump has run to completion by time `t` (a branch still
running when `try_join!` returns at `t` is cancelled, not completed). -/
def ranToEnd (p : Pump) (t : Nat) : Bool := p.steps ≤ t

/-- Observability events (the tracing calls in minginx.rs). -/
inductive ObsEvent where
  /-- `info!("Accepted connection from {addr}")` in the accept loop. -/
  | accepted (addr : Nat)
  /-- `info!("proxied {n} bytes from client to upstream, {m} bytes from
  upstream to client")` in `proxy`. -/
  | relayed (n m : Nat)
  /-- `warn!("error proxying: {e}")` in `proxy`. -/
  | pumpWarn (e : IOErr)
deriving DecidableEq

/-- `proxy(client, upstream)`: run the two copies under `try_join!`,
log the outcome, and return `Ok(())` in either case.  First component:
the event `proxy` logs; second: the value it returns. -/
def proxy (p q : Pump) : ObsEvent × Except IOErr Unit :=
  match tryJoin p q with
  | Except.ok (n, m) => (ObsEvent.relayed n m, Except.ok ())
  | Except.error e => (ObsEvent.pumpWarn e, Except.ok ())

/-- Result of the task spawned per connection: the events it logs, the
value the spawned future resolves to, and whether the client socket is
closed when the task ends (it always is: the task owns the stream and
drops it on every exit path). -/
structure TaskOutcome where
  events : List ObsEvent
  result : Except IOErr Unit
  clientClosed : Bool
deriving DecidableEq

/-- The `tokio::spawn`ed per-connection future: `TcpStream::connect` to
the upstream, `?` on failure (which ends the task with that error,
logging nothing), then `proxy`.  The client stream is moved into the
task, so it is dropped (closed) on every exit path. -/
def connTask (connect : Except IOErr Unit) (p q : Pump) : TaskOutcome :=
  match connect with
  | Except.error e =>
      { events := [], result := Except.error e, clientClosed := true }
  | Except.ok _ =>
      { events := [(proxy p q).1], result := (proxy p q).2,
        clientClosed := true }

/-- What the network offers the accept loop next: an accepted
connection (with the world that connection's task will see: the outcome
of its upstream connect and its two pump directions), or an accept
error. -/
inductive NetEvent where
  | conn (addr : Nat) (connect : Except IOErr Unit) (p q : Pump)
  | aerr (e : IOErr)
deriving DecidableEq

/-- Whether `main` has returned, and with what.  The accept loop has no
break, so while events keep arriving without an accept error the server
is still running. -/
inductive MainResult where
  | running
  | returned (r : Except IOErr Unit)
deriving DecidableEq

/-- State of a server run: the events `main` itself logged, the outcome
of every task spawned so far (tasks are spawned and their JoinHandle is
dropped, so nothing in `main` reads these), and whether `main` has
returned. -/
structure ServerRun where
  log : List ObsEvent
  tasks : List TaskOutcome
  main : MainResult
deriving DecidableEq

/-- The accept loop of `main`: on each accepted connection, log the
address, spawn the task, and continue; on an accept error the `?`
returns it from `main` at once. -/
def acceptLoop : List NetEvent → ServerRun
  | [] => { log := [], tasks := [], main := MainResult.running }
  | NetEvent.conn a c p q :: rest =>
      let r := acceptLoop rest
      { log := ObsEvent.accepted a :: r.log,
        tasks := connTask c p q :: r.tasks, main := r.main }
  | NetEvent.aerr e :: _ =>
      { log := [], tasks := [],
        main := MainResult.returned (Except.error e) }

/-- `main` after config resolution: bind the listener (`?` on a bind
error, before any accept), then run the accept loop. -/
def serverRun (bind : Except IOErr Unit) (net : List NetEvent) : ServerRun :=
  match bind with
  | Except.error e =>
      { log := [], tasks := [],
        main := MainResult.returned (Except.error e) }
  | Except.ok _ => acceptLoop net

/-- The hardcoded configuration (`resolve_config`). -/
structure Config where
  upstream_addr : String
  listen_addr : String
deriving DecidableEq

/-- `resolve_config()` in minginx.rs. -/
def resolve_config : Config :=
  { upstream_addr := "0.0.0.0:8080", listen_addr := "0.0.0.0:8081" }

/-!
## Concurrency model of the bidirectional pump

`proxy` runs its two `io::copy` loops under `tokio::try_join!`, so
both are polled by the same task: whenever the relay is scheduled, each
copy that can make progress makes progress (neither waits for the other
to finish first).  To reason about progress under simultaneous sends we
model the whole system — both peers, the four bounded socket buffers,
and the two copy loops — as a state machine stepped by a round-robin
scheduler, one micro-step per agent per round, which is how the tokio
task polls both `try_join!` branches.  Byte counts suffice here (order
preservation is the byte-level `ioCopy` model above).

Buffers have capacity `C` (the bounded kernel socket buffers: a write
into a full buffer blocks, i.e. is skipped this round).  The peers each
want to send `M` bytes and always drain their receive side first — the
simultaneous-send scenario of the spec, with peers that do receive.
-/

/-- Byte counts of the relay system: `aRem` bytes the client still has
to send, `cbIn`/`ubOut` the bytes sitting in the client-to-proxy and
proxy-to-upstream buffers, `dU` bytes delivered to the upstream; the
`b`/`u`/`dC` fields are the mirror-image upstream-to-client direction. -/
structure RelayState where
  aRem : Nat
  cbIn : Nat
  ubOut : Nat
  dU : Nat
  bRem : Nat
  ubIn : Nat
  cbOut : Nat
  dC : Nat
deriving DecidableEq

/-- The client peer: drain the proxy-to-client buffer when nonempty,
else push the next byte of its payload when its send buffer has room. -/
def clientStep (C : Nat) (s : RelayState) : RelayState :=
  if 0 < s.cbOut then { s with cbOut := s.cbOut - 1, dC := s.dC + 1 }
  else if 0 < s.aRem ∧ s.cbIn < C then
    { s with aRem := s.aRem - 1, cbIn := s.cbIn + 1 }
  else s

/-- The upstream peer, mirror image of the client. -/
def upstreamStep (C : Nat) (s : RelayState) : RelayState :=
  if 0 < s.ubOut then { s with ubOut := s.ubOut - 1, dU := s.dU + 1 }
  else if 0 < s.bRem ∧ s.ubIn < C then
    { s with bRem := s.bRem - 1, ubIn := s.ubIn + 1 }
  else s

/-- One poll of the client-to-upstream `io::copy`: read a byte when one
is available and write it when the destination buffer has room. -/
def pumpA (C : Nat) (s : RelayState) : RelayState :=
  if 0 < s.cbIn ∧ s.ubOut < C then
    { s with cbIn := s.cbIn - 1, ubOut := s.ubOut + 1 }
  else s

/-- One poll of the upstream-to-client `io::copy`. -/
def pumpB (C : Nat) (s : RelayState) : RelayState :=
  if 0 < s.ubIn ∧ s.cbOut < C then
    { s with ubIn := s.ubIn - 1, cbOut := s.cbOut + 1 }
  else s

/-- One scheduler round: every agent is polled once.  Both pumps are
polled every round because `try_join!` polls both branches — this is
the concurrent (not sequential) execution of the two directions. -/
def relayRound (C : Nat) (s : RelayState) : RelayState :=
  pumpB C (pumpA C (upstreamStep C (clientStep C s)))

/-- Run `fuel` scheduler rounds. -/
def relayRun (C : Nat) : Nat → RelayState → RelayState
  | 0, s => s
  | fuel + 1, s => relayRun C fuel (relayRound C s)

/-- Initial state: both peers hold their full `M`-byte payloads,
buffers empty, nothing delivered. -/
def relayInit (M : Nat) : RelayState :=
  { aRem := M, cbIn := 0, ubOut := 0, dU := 0,
    bRem := M, ubIn := 0, cbOut := 0, dC := 0 }

/-- Both payloads fully delivered. -/
def relayDone (M : Nat) (s : RelayState) : Prop :=
  s.dU = M ∧ s.dC = M

instance (M : Nat) (s : RelayState) : Decidable (relayDone M s) :=
  inferInstanceAs (Decidable (And _ _))

/-- Byte conservation in each direction. -/
def relayInv (M : Nat) (s : RelayState) : Prop :=
  s.aRem + s.cbIn + s.ubOut + s.dU = M ∧
  s.bRem + s.ubIn + s.cbOut + s.dC = M

/-- Progress potential: each byte contributes its stage along its
pipeline; every effective micro-step advances one byte one stage. -/
def relayPhi (s : RelayState) : Nat :=
  s.cbIn + 2 * s.ubOut + 3 * s.dU + s.ubIn + 2 * s.cbOut + 3 * s.dC

/-- Replace the per-connection payload (upstream connect outcome and
pump outcomes) of every accepted connection, keeping the shape of the
event stream.  Used to state that the accept loop is oblivious to what
happens inside the spawned tasks. -/
def replacePayload (c : Except IOErr Unit) (p q : Pump) :
    NetEvent → NetEvent
  | NetEvent.conn a _ _ _ => NetEvent.conn a c p q
  | NetEvent.aerr e => NetEvent.aerr e

/-- Whether a network event is an accepted connection (not an accept
error). -/
def isConn : NetEvent → Bool
  | NetEvent.conn _ _ _ _ => true
  | NetEvent.aerr _ => false

/-- The accept-loop log entry of an accepted connection (unused default
on accept errors, which callers rule out). -/
def acceptLogOf : NetEvent → ObsEvent
  | NetEvent.conn a _ _ _ => ObsEvent.accepted a
  | NetEvent.aerr _ => ObsEvent.accepted 0

/-- The task the accept loop spawns for an accepted connection (unused
default on accept errors, which callers rule out). -/
def spawnedTaskOf : NetEvent → TaskOutcome
  | NetEvent.conn _ c p q => connTask c p q
  | NetEvent.aerr e =>
      { events := [], result := Except.error e, clientClosed := true }

theorem relayInv_clientStep (C M : Nat) (s : RelayState) (h : relayInv M s) :
    relayInv M (clientStep C s) := by
  simp only [relayInv, clientStep] at *
  split_ifs <;> simp_all <;> omega

theorem relayInv_upstreamStep (C M : Nat) (s : RelayState) (h : relayInv M s) :
    relayInv M (upstreamStep C s) := by
  simp only [relayInv, upstreamStep] at *
  split_ifs <;> simp_all <;> omega

theorem relayInv_pumpA (C M : Nat) (s : RelayState) (h : relayInv M s) :
    relayInv M (pumpA C s) := by
  simp only [relayInv, pumpA] at *
  split_ifs <;> simp_all <;> omega

theorem relayInv_pumpB (C M : Nat) (s : RelayState) (h : relayInv M s) :
    relayInv M (pumpB C s) := by
  simp only [relayInv, pumpB] at *
  split_ifs <;> simp_all <;> omega

theorem relayInv_round (C M : Nat) (s : RelayState) (h : relayInv M s) :
    relayInv M (relayRound C s) :=
  relayInv_pumpB C M _ (relayInv_pumpA C M _ (relayInv_upstreamStep C M _
    (relayInv_clientStep C M s h)))

theorem relayPhi_clientStep_mono (C : Nat) (s : RelayState) :
    relayPhi s ≤ relayPhi (clientStep C s) := by
  simp only [relayPhi, clientStep]
  split_ifs <;> simp_all <;> omega

theorem relayPhi_upstreamStep_mono (C : Nat) (s : RelayState) :
    relayPhi s ≤ relayPhi (upstreamStep C s) := by
  simp only [relayPhi, upstreamStep]
  split_ifs <;> simp_all <;> omega

theorem relayPhi_pumpA_mono (C : Nat) (s : RelayState) :
    relayPhi s ≤ relayPhi (pumpA C s) := by
  simp only [relayPhi, pumpA]
  split_ifs <;> simp_all <;> omega

theorem relayPhi_pumpB_mono (C : Nat) (s : RelayState) :
    relayPhi s ≤ relayPhi (pumpB C s) := by
  simp only [relayPhi, pumpB]
  split_ifs <;> simp_all <;> omega

theorem relayPhi_round_mono (C : Nat) (s : RelayState) :
    relayPhi s ≤ relayPhi (relayRound C s) := by
  have h1 := relayPhi_clientStep_mono C s
  have h2 := relayPhi_upstreamStep_mono C (clientStep C s)
  have h3 := relayPhi_pumpA_mono C (upstreamStep C (clientStep C s))
  have h4 := relayPhi_pumpB_mono C (pumpA C (upstreamStep C (clientStep C s)))
  simp only [relayRound]
  omega

theorem relayPhi_clientStep_act (C : Nat) (s : RelayState)
    (h : 0 < s.cbOut ∨ (0 < s.aRem ∧ s.cbIn < C)) :
    relayPhi (clientStep C s) = relayPhi s + 1 := by
  simp only [relayPhi, clientStep]
  split_ifs <;> simp_all <;> omega

theorem relayPhi_upstreamStep_act (C : Nat) (s : RelayState)
    (h : 0 < s.ubOut ∨ (0 < s.bRem ∧ s.ubIn < C)) :
    relayPhi (upstreamStep C s) = relayPhi s + 1 := by
  simp only [relayPhi, upstreamStep]
  split_ifs <;> simp_all <;> omega

theorem relayPhi_pumpA_act (C : Nat) (s : RelayState)
    (h : 0 < s.cbIn ∧ s.ubOut < C) :
    relayPhi (pumpA C s) = relayPhi s + 1 := by
  simp only [relayPhi, pumpA]
  split_ifs <;> simp_all <;> omega

theorem relayPhi_pumpB_act (C : Nat) (s : RelayState)
    (h : 0 < s.ubIn ∧ s.cbOut < C) :
    relayPhi (pumpB C s) = relayPhi s + 1 := by
  simp only [relayPhi, pumpB]
  split_ifs <;> simp_all <;> omega

theorem clientStep_id (C : Nat) (s : RelayState) (h1 : ¬ 0 < s.cbOut)
    (h2 : ¬ (0 < s.aRem ∧ s.cbIn < C)) : clientStep C s = s := by
  simp only [clientStep, if_neg h1, if_neg h2]

theorem upstreamStep_id (C : Nat) (s : RelayState) (h1 : ¬ 0 < s.ubOut)
    (h2 : ¬ (0 < s.bRem ∧ s.ubIn < C)) : upstreamStep C s = s := by
  simp only [upstreamStep, if_neg h1, if_neg h2]

theorem pumpA_id (C : Nat) (s : RelayState)
    (h : ¬ (0 < s.cbIn ∧ s.ubOut < C)) : pumpA C s = s := by
  simp only [pumpA, if_neg h]

/-- Whenever the system is not finished, one scheduler round makes
strict progress: because `try_join!` polls both copy directions every
round, some agent can always move a byte forward. -/
theorem relayPhi_round_progress (C M : Nat) (s : RelayState) (hC : 0 < C)
    (hinv : relayInv M s) (hnd : ¬ relayDone M s) :
    relayPhi s + 1 ≤ relayPhi (relayRound C s) := by
  by_cases h1 : 0 < s.cbOut ∨ (0 < s.aRem ∧ s.cbIn < C)
  · have ha := relayPhi_clientStep_act C s h1
    have m2 := relayPhi_upstreamStep_mono C (clientStep C s)
    have m3 := relayPhi_pumpA_mono C (upstreamStep C (clientStep C s))
    have m4 := relayPhi_pumpB_mono C (pumpA C (upstreamStep C (clientStep C s)))
    simp only [relayRound]
    omega
  · push_neg at h1
    have hc1 : ¬ 0 < s.cbOut := by omega
    have hc2 : ¬ (0 < s.aRem ∧ s.cbIn < C) := by
      intro hx
      exact absurd (h1.2 hx.1) (by omega)
    rw [relayRound, clientStep_id C s hc1 hc2]
    by_cases h2 : 0 < s.ubOut ∨ (0 < s.bRem ∧ s.ubIn < C)
    · have ha := relayPhi_upstreamStep_act C s h2
      have m3 := relayPhi_pumpA_mono C (upstreamStep C s)
      have m4 := relayPhi_pumpB_mono C (pumpA C (upstreamStep C s))
      omega
    · push_neg at h2
      have hu1 : ¬ 0 < s.ubOut := by omega
      have hu2 : ¬ (0 < s.bRem ∧ s.ubIn < C) := by
        intro hx
        exact absurd (h2.2 hx.1) (by omega)
      rw [upstreamStep_id C s hu1 hu2]
      by_cases h3 : 0 < s.cbIn ∧ s.ubOut < C
      · have ha := relayPhi_pumpA_act C s h3
        have m4 := relayPhi_pumpB_mono C (pumpA C s)
        omega
      · rw [pumpA_id C s h3]
        have hcond : 0 < s.ubIn ∧ s.cbOut < C := by
          simp only [relayInv] at hinv
          simp only [relayDone] at hnd
          rcases hinv with ⟨hA, hB⟩
          constructor
          · by_contra hz
            simp only [Nat.not_lt, Nat.le_zero] at hz
            have hub : s.ubOut = 0 := by omega
            have hcb : s.cbIn = 0 := by
              by_contra hcb
              exact h3 ⟨by omega, by omega⟩
            have har : s.aRem = 0 := by
              by_cases hy : 0 < s.aRem
              · exact absurd (h1.2 hy) (by omega)
              · omega
            have hbr : s.bRem = 0 := by
              by_cases hy : 0 < s.bRem
              · exact absurd (h2.2 hy) (by omega)
              · omega
            exact hnd ⟨by omega, by omega⟩
          · omega
        have ha := relayPhi_pumpB_act C s hcond
        omega

theorem relayPhi_le (M : Nat) (s : RelayState) (hinv : relayInv M s) :
    relayPhi s ≤ 6 * M := by
  simp only [relayInv, relayPhi] at *
  omega

theorem relayPhi_done (M : Nat) (s : RelayState) (hinv : relayInv M s)
    (h : 6 * M ≤ relayPhi s) : relayDone M s := by
  simp only [relayInv, relayPhi, relayDone] at *
  omega

theorem relayRun_done (C M : Nat) (hC : 0 < C) :
    ∀ fuel s, relayInv M s → 6 * M ≤ relayPhi s + fuel →
      relayDone M (relayRun C fuel s) := by
  intro fuel
  induction fuel with
  | zero =>
      intro s hinv hfuel
      exact relayPhi_done M s hinv (by omega)
  | succ n ih =>
      intro s hinv hfuel
      by_cases hd : relayDone M s
      · have h6 : 6 * M ≤ relayPhi s := by
          simp only [relayDone] at hd
          simp only [relayInv] at hinv
          simp only [relayPhi]
          omega
        have hmono := relayPhi_round_mono C s
        exact ih (relayRound C s) (relayInv_round C M s hinv) (by omega)
      · have hstep := relayPhi_round_progress C M s hC hinv hd
        exact ih (relayRound C s) (relayInv_round C M s hinv) (by omega)

/-!
## Helper lemmas
-/

theorem writeChunks_spec (cs : List (List Byte)) : ∀ d : Dst,
    (writeChunks cs d).1 = (cs.map List.length).sum ∧
    (writeChunks cs d).2.data = d.data ++ cs.join ∧
    (writeChunks cs d).2.flushed = d.flushed ∧
    (writeChunks cs d).2.writeClosed = d.writeClosed := by
  induction cs with
  | nil => intro d; simp [writeChunks]
  | cons c cs ih =>
      intro d
      have h := ih { d with data := d.data ++ c }
      simp only [writeChunks, List.map_cons, List.sum_cons, List.join_cons]
      refine ⟨?_, ?_, h.2.2.1, h.2.2.2⟩
      · rw [h.1]
      · rw [h.2.1]
        simp

theorem acceptLoop_payload_independent (c : Except IOErr Unit)
    (p q : Pump) : ∀ net : List NetEvent,
    (acceptLoop (net.map (replacePayload c p q))).log = (acceptLoop net).log ∧
    (acceptLoop (net.map (replacePayload c p q))).main = (acceptLoop net).main := by
  intro net
  induction net with
  | nil => simp [acceptLoop]
  | cons x rest ih =>
      cases x with
      | conn a c0 p0 q0 =>
          simp only [List.map_cons, replacePayload, acceptLoop]
          exact ⟨by rw [ih.1], ih.2⟩
      | aerr e =>
          simp [replacePayload, acceptLoop]

theorem acceptLoop_append_conns :
    ∀ xs ys : List NetEvent, (∀ x ∈ xs, isConn x = true) →
    acceptLoop (xs ++ ys) =
      { log := xs.map acceptLogOf ++ (acceptLoop ys).log,
        tasks := xs.map spawnedTaskOf ++ (acceptLoop ys).tasks,
        main := (acceptLoop ys).main } := by
  intro xs
  induction xs with
  | nil => intro ys _; simp [acceptLoop]
  | cons x xs ih =>
      intro ys h
      cases x with
      | conn a c p q =>
          have hrec := ih ys (fun z hz => h z (List.mem_cons_of_mem _ hz))
          simp only [List.cons_append, acceptLoop, List.map_cons,
            acceptLogOf, spawnedTaskOf, List.append_eq]
          rw [hrec]
      | aerr e =>
          have : isConn (NetEvent.aerr e) = true := h _ (List.mem_cons_self _ _)
          simp [isConn] at this

theorem proxy_returns_ok (p q : Pump) : (proxy p q).2 = Except.ok () := by
  cases h : tryJoin p q with
  | ok v =>
      cases v
      simp [proxy, h]
  | error e => simp [proxy, h]

theorem connTask_clientClosed (c : Except IOErr Unit) (p q : Pump) :
    (connTask c p q).clientClosed = true := by
  cases c <;> simp [connTask]

theorem ioCopy_eof_fst (s : Src) (d : Dst) (h : s.ending = Ending.eof) :
    (ioCopy s d).1 = Except.ok s.chunks.join.length := by
  have hw := writeChunks_spec s.chunks d
  simp only [ioCopy, h]
  rw [hw.1, List.length_join]

/-!
## The claims
-/

/-- C3 counterexample: the pump does NOT close the destination's write
side on EOF.  Here a source yields one 3-byte chunk and then EOF; the
copy terminates normally with count 3, yet the destination's write side
is still open — minginx's `proxy` never calls `shutdown`, contradicting
the claim that EOF is signalled to the destination by closing its write
side. -/
theorem claim_C3_counterexample :
    (ioCopy { chunks := [[1, 2, 3]], ending := Ending.eof }
        { data := [], flushed := false, writeClosed := false }).1 =
      Except.ok 3 ∧
    (ioCopy { chunks := [[1, 2, 3]], ending := Ending.eof }
        { data := [], flushed := false, writeClosed := false }).2.writeClosed =
      false := by
  decide

/-- C3 (amended): when the source reports end-of-stream the pump
terminates normally (returning the byte count) and flushes the
destination, but it does NOT shut down the destination's write side —
no half-close is propagated; the sockets are closed only at connection
teardown, when the task that owns both streams returns (on every exit
path). -/
theorem claim_C3 (s : Src) (d : Dst) (h : s.ending = Ending.eof) :
    (ioCopy s d).1 = Except.ok s.chunks.join.length ∧
    (ioCopy s d).2.flushed = true ∧
    (ioCopy s d).2.writeClosed = d.writeClosed ∧
    ∀ (c : Except IOErr Unit) (p q : Pump),
      (connTask c p q).clientClosed = true := by
  have hw := writeChunks_spec s.chunks d
  refine ⟨ioCopy_eof_fst s d h, ?_, ?_, fun c p q => connTask_clientClosed c p q⟩
  · simp only [ioCopy, h]
  · simp only [ioCopy, h]
    exact hw.2.2.2

/-- C3 witness: instantiating the amended theorem at a concrete
source/destination. -/
theorem claim_C3_witness :
    ({ chunks := [[1, 2]], ending := Ending.eof } : Src).ending =
      Ending.eof ∧
    (ioCopy { chunks := [[1, 2]], ending := Ending.eof }
        { data := [], flushed := false, writeClosed := false }).2.flushed =
      true := by
  have h := claim_C3 { chunks := [[1, 2]], ending := Ending.eof }
    { data := [], flushed := false, writeClosed := false } rfl
  exact ⟨rfl, h.2.1⟩

/-- C5: byte fidelity.  After a successful upstream connection, each
direction's copy appends to its destination exactly the bytes the
source yields, in order: the upstream receives exactly the client
payload and the client receives exactly the upstream payload,
independently. -/
theorem claim_C5 (cs us : Src) (cd ud : Dst)
    (hc : cs.ending = Ending.eof) (hu : us.ending = Ending.eof) :
    (ioCopy cs ud).2.data = ud.data ++ cs.chunks.join ∧
    (ioCopy us cd).2.data = cd.data ++ us.chunks.join := by
  have h1 := writeChunks_spec cs.chunks ud
  have h2 := writeChunks_spec us.chunks cd
  constructor
  · simp only [ioCopy, hc]
    exact h1.2.1
  · simp only [ioCopy, hu]
    exact h2.2.1

/-- C5 witness: a concrete two-chunk client payload and one-chunk
upstream payload arrive exactly and in order. -/
theorem claim_C5_witness :
    ({ chunks := [[10, 11], [12]], ending := Ending.eof } : Src).ending =
      Ending.eof ∧
    ({ chunks := [[7]], ending := Ending.eof } : Src).ending = Ending.eof ∧
    (ioCopy { chunks := [[10, 11], [12]], ending := Ending.eof }
        { data := [], flushed := false, writeClosed := false }).2.data =
      [10, 11, 12] := by
  have h := claim_C5 { chunks := [[10, 11], [12]], ending := Ending.eof }
    { chunks := [[7]], ending := Ending.eof }
    { data := [], flushed := false, writeClosed := false }
    { data := [], flushed := false, writeClosed := false } rfl rfl
  refine ⟨rfl, rfl, ?_⟩
  simpa using h.1

/-- C6: when both directions end in clean EOF, the logged
`connection_relayed` counters are exactly the two `io::copy` return
values, which equal the number of bytes each destination actually
received in that direction. -/
theorem claim_C6 (cs us : Src) (cd ud : Dst) (t1 t2 : Nat)
    (hc : cs.ending = Ending.eof) (hu : us.ending = Ending.eof) :
    proxy (pumpOfCopy cs ud t1) (pumpOfCopy us cd t2) =
      (ObsEvent.relayed cs.chunks.join.length us.chunks.join.length,
        Except.ok ()) ∧
    (ioCopy cs ud).2.data.length = ud.data.length + cs.chunks.join.length ∧
    (ioCopy us cd).2.data.length = cd.data.length + us.chunks.join.length := by
  have r1 := ioCopy_eof_fst cs ud hc
  have r2 := ioCopy_eof_fst us cd hu
  have h1 := writeChunks_spec cs.chunks ud
  have h2 := writeChunks_spec us.chunks cd
  refine ⟨?_, ?_, ?_⟩
  · simp [proxy, tryJoin, pumpOfCopy, r1, r2]
  · simp only [ioCopy, hc]
    rw [h1.2.1]
    simp
  · simp only [ioCopy, hu]
    rw [h2.2.1]
    simp

/-- C6 witness: a client sending exactly 4096 bytes and an upstream
sending exactly 4096 bytes yield logged counters 4096 and 4096. -/
theorem claim_C6_witness :
    ({ chunks := [List.replicate 4096 0], ending := Ending.eof } : Src).ending
      = Ending.eof ∧
    proxy
      (pumpOfCopy { chunks := [List.replicate 4096 0], ending := Ending.eof }
        { data := [], flushed := false, writeClosed := false } 1)
      (pumpOfCopy { chunks := [List.replicate 4096 0], ending := Ending.eof }
        { data := [], flushed := false, writeClosed := false } 2) =
      (ObsEvent.relayed 4096 4096, Except.ok ()) := by
  have h := claim_C6 { chunks := [List.replicate 4096 0], ending := Ending.eof }
    { chunks := [List.replicate 4096 0], ending := Ending.eof }
    { data := [], flushed := false, writeClosed := false }
    { data := [], flushed := false, writeClosed := false } 1 2 rfl rfl
  refine ⟨rfl, ?_⟩
  have hlen : (([List.replicate 4096 (0 : Byte)].join).length) = 4096 := by
    simp only [List.join_cons, List.join_nil, List.append_nil,
      List.length_replicate]
  rw [h.1, hlen]

/-- C9: the two pump directions run concurrently — every scheduler
round polls both `try_join!` branches — so when both peers send
simultaneously (each an `M`-byte payload through buffers of any
positive capacity `C`), the whole system drains: after `6 * M` rounds
every byte of both payloads has been delivered.  Sequential pumping has
no such bound: with both peers sending first, the client→upstream copy
alone blocks on a full buffer that only the other direction's progress
can free. -/
theorem claim_C9 (M C : Nat) (hC : 0 < C) :
    relayDone M (relayRun C (6 * M) (relayInit M)) := by
  have hinv : relayInv M (relayInit M) := by simp [relayInv, relayInit]
  have hphi : relayPhi (relayInit M) = 0 := by simp [relayPhi, relayInit]
  exact relayRun_done C M hC (6 * M) (relayInit M) hinv (by omega)

/-- C9 witness: with 2-byte payloads each way and capacity-1 buffers,
12 concurrent rounds deliver everything. -/
theorem claim_C9_witness :
    0 < 1 ∧ relayDone 2 (relayRun 1 (6 * 2) (relayInit 2)) :=
  ⟨by decide, claim_C9 2 1 (by decide)⟩

/-- C10: `proxy` returns `Ok(())` whatever the two pumps do — a pump
error is only logged — so the spawned task's result is an error exactly
when the upstream connect step failed. -/
theorem claim_C10 :
    (∀ p q : Pump, (proxy p q).2 = Except.ok ()) ∧
    (∀ (e : IOErr) (p q : Pump),
        connTask (Except.error e) p q =
          { events := [], result := Except.error e, clientClosed := true }) ∧
    (∀ p q : Pump, (connTask (Except.ok ()) p q).result = Except.ok ()) := by
  refine ⟨proxy_returns_ok, ?_, ?_⟩
  · intro e p q
    rfl
  · intro p q
    simp only [connTask]
    exact proxy_returns_ok p q

/-- C1 counterexample: the claim says that when one pump errors, the
relay still waits for the other direction to finish and reports the
aggregate failure through its result.  Here the first direction errors
at poll 1 while the second would complete successfully at poll 5:
`try_join!` returns at poll 1, the second direction has NOT run to
completion (it is dropped), and `proxy` returns `Ok(())` — the error is
only logged, never reported to the caller. -/
theorem claim_C1_counterexample :
    joinTime { steps := 1, result := Except.error 7 }
        { steps := 5, result := Except.ok 100 } = 1 ∧
    ranToEnd { steps := 5, result := Except.ok 100 }
      (joinTime { steps := 1, result := Except.error 7 }
        { steps := 5, result := Except.ok 100 }) = false ∧
    (proxy { steps := 1, result := Except.error 7 }
        { steps := 5, result := Except.ok 100 }).2 = Except.ok () := by
  decide

/-- C1 (amended): when both pumps complete successfully, `try_join!`
waits for both directions (it returns at the later completion time and
neither direction is cancelled).  But when either pump — the
client→upstream copy, the upstream→client copy, or both — reports an
I/O error, `try_join!` returns at the earliest error: a direction that
had already finished by then has run to completion, but a still-running
direction is cancelled rather than awaited (its completion is
`decide (its own time ≤ the error time)`); the first error is logged as
a warning and `proxy` still returns `Ok(())` — the failure is not
reported through the relay result. -/
theorem claim_C1 (p q : Pump) :
    (∀ n m : Nat, p.result = Except.ok n → q.result = Except.ok m →
      joinTime p q = max p.steps q.steps ∧
      ranToEnd p (joinTime p q) = true ∧
      ranToEnd q (joinTime p q) = true ∧
      proxy p q = (ObsEvent.relayed n m, Except.ok ())) ∧
    (∀ (e : IOErr) (n : Nat),
      p.result = Except.error e → q.result = Except.ok n →
      joinTime p q = p.steps ∧
      ranToEnd q (joinTime p q) = decide (q.steps ≤ p.steps) ∧
      (proxy p q).1 = ObsEvent.pumpWarn e ∧
      (proxy p q).2 = Except.ok ()) ∧
    (∀ (e : IOErr) (n : Nat),
      q.result = Except.error e → p.result = Except.ok n →
      joinTime p q = q.steps ∧
      ranToEnd p (joinTime p q) = decide (p.steps ≤ q.steps) ∧
      (proxy p q).1 = ObsEvent.pumpWarn e ∧
      (proxy p q).2 = Except.ok ()) ∧
    (∀ e1 e2 : IOErr,
      p.result = Except.error e1 → q.result = Except.error e2 →
      joinTime p q = min p.steps q.steps ∧
      (proxy p q).1 =
        ObsEvent.pumpWarn (if p.steps ≤ q.steps then e1 else e2) ∧
      (proxy p q).2 = Except.ok ()) := by
  refine ⟨?_, ?_, ?_, ?_⟩
  · intro n m hp hq
    refine ⟨by simp [joinTime, hp, hq], ?_, ?_, by simp [proxy, tryJoin, hp, hq]⟩
    · simp only [joinTime, hp, hq, ranToEnd, decide_eq_true_eq]
      omega
    · simp only [joinTime, hp, hq, ranToEnd, decide_eq_true_eq]
      omega
  · intro e n hp hq
    refine ⟨by simp [joinTime, hp, hq], ?_,
      by simp [proxy, tryJoin, hp, hq], proxy_returns_ok p q⟩
    simp only [joinTime, hp, hq, ranToEnd]
  · intro e n hq hp
    refine ⟨by simp [joinTime, hp, hq], ?_,
      by simp [proxy, tryJoin, hp, hq], proxy_returns_ok p q⟩
    simp only [joinTime, hp, hq, ranToEnd]
  · intro e1 e2 hp hq
    refine ⟨by simp [joinTime, hp, hq], ?_, proxy_returns_ok p q⟩
    by_cases hle : p.steps ≤ q.steps
    · simp [proxy, tryJoin, hp, hq, hle]
    · simp [proxy, tryJoin, hp, hq, hle]

/-- C1 witness: all four cases of the amended statement at concrete
pumps — both directions succeeding; the client→upstream pump erroring
(before and after the other direction finished); the upstream→client
pump erroring; and both erroring. -/
theorem claim_C1_witness :
    joinTime { steps := 2, result := Except.ok 10 }
      { steps := 5, result := Except.ok 20 } = 5 ∧
    (proxy { steps := 4, result := Except.ok 1 }
        { steps := 3, result := Except.error 9 }).1 = ObsEvent.pumpWarn 9 ∧
    ranToEnd { steps := 2, result := Except.ok 33 }
      (joinTime { steps := 2, result := Except.ok 33 }
        { steps := 6, result := Except.error 5 }) = true ∧
    ranToEnd { steps := 5, result := Except.ok 100 }
      (joinTime { steps := 1, result := Except.error 7 }
        { steps := 5, result := Except.ok 100 }) = false ∧
    (proxy { steps := 1, result := Except.error 7 }
        { steps := 2, result := Except.error 8 }).1 = ObsEvent.pumpWarn 7 := by
  refine ⟨?_, ?_, ?_, ?_, ?_⟩
  · have h := (claim_C1 { steps := 2, result := Except.ok 10 }
      { steps := 5, result := Except.ok 20 }).1 10 20 rfl rfl
    simpa using h.1
  · have h := (claim_C1 { steps := 4, result := Except.ok 1 }
      { steps := 3, result := Except.error 9 }).2.2.1 9 1 rfl rfl
    exact h.2.2.1
  · have h := (claim_C1 { steps := 2, result := Except.ok 33 }
      { steps := 6, result := Except.error 5 }).2.2.1 5 33 rfl rfl
    exact (h.2.1).trans (by decide)
  · have h := (claim_C1 { steps := 1, result := Except.error 7 }
      { steps := 5, result := Except.ok 100 }).2.1 7 100 rfl rfl
    exact (h.2.1).trans (by decide)
  · have h := (claim_C1 { steps := 1, result := Except.error 7 }
      { steps := 2, result := Except.error 8 }).2.2.2 7 8 rfl rfl
    exact (h.2.1).trans (by decide)

/-- C2 counterexample: an upstream connect failure is a per-connection
error, yet the connection's unit produces NO observability event: the
`?` after `TcpStream::connect` ends the spawned task with the error,
the task's JoinHandle is dropped, and nothing logs it.  This refutes
the part of the claim that every per-connection error is converted into
an observability event. -/
theorem claim_C2_counterexample :
    (connTask (Except.error 3) { steps := 0, result := Except.ok 0 }
        { steps := 0, result := Except.ok 0 }).events = [] ∧
    (connTask (Except.error 3) { steps := 0, result := Except.ok 0 }
        { steps := 0, result := Except.ok 0 }).result = Except.error 3 := by
  decide

/-- C2 (amended): per-connection errors are fully contained — the
accept loop's own log and its termination are unchanged whatever the
connect results and pump outcomes of the spawned tasks are, so the loop
keeps accepting.  A pump I/O error on either direction (client→upstream,
upstream→client, or both — then the first error) is converted into a
warn observability event; an upstream connect failure, however,
terminates only that task with the error and emits no observability
event (the spawned task's result is discarded). -/
theorem claim_C2 :
    (∀ (net : List NetEvent) (c : Except IOErr Unit) (p q : Pump),
      (acceptLoop (net.map (replacePayload c p q))).log =
        (acceptLoop net).log ∧
      (acceptLoop (net.map (replacePayload c p q))).main =
        (acceptLoop net).main) ∧
    (∀ (e : IOErr) (n : Nat) (p q : Pump),
      p.result = Except.error e → q.result = Except.ok n →
      (connTask (Except.ok ()) p q).events = [ObsEvent.pumpWarn e] ∧
      (connTask (Except.ok ()) p q).result = Except.ok ()) ∧
    (∀ (e : IOErr) (n : Nat) (p q : Pump),
      q.result = Except.error e → p.result = Except.ok n →
      (connTask (Except.ok ()) p q).events = [ObsEvent.pumpWarn e] ∧
      (connTask (Except.ok ()) p q).result = Except.ok ()) ∧
    (∀ (e1 e2 : IOErr) (p q : Pump),
      p.result = Except.error e1 → q.result = Except.error e2 →
      (connTask (Except.ok ()) p q).events =
        [ObsEvent.pumpWarn (if p.steps ≤ q.steps then e1 else e2)] ∧
      (connTask (Except.ok ()) p q).result = Except.ok ()) ∧
    (∀ (e : IOErr) (p q : Pump),
      (connTask (Except.error e) p q).events = [] ∧
      (connTask (Except.error e) p q).result = Except.error e) := by
  refine ⟨fun net c p q => acceptLoop_payload_independent c p q net,
    ?_, ?_, ?_, ?_⟩
  · intro e n p q hp hq
    exact ⟨by simp [connTask, proxy, tryJoin, hp, hq],
      by simp [connTask, proxy_returns_ok]⟩
  · intro e n p q hq hp
    exact ⟨by simp [connTask, proxy, tryJoin, hp, hq],
      by simp [connTask, proxy_returns_ok]⟩
  · intro e1 e2 p q hp hq
    refine ⟨?_, by simp [connTask, proxy_returns_ok]⟩
    by_cases hle : p.steps ≤ q.steps
    · simp [connTask, proxy, tryJoin, hp, hq, hle]
    · simp [connTask, proxy, tryJoin, hp, hq, hle]
  · intro e p q
    exact ⟨rfl, rfl⟩

/-- C2 witness: concrete pump errors on each direction — and on both at
once — are logged as warn events. -/
theorem claim_C2_witness :
    ({ steps := 0, result := Except.error 4 } : Pump).result =
      Except.error 4 ∧
    (connTask (Except.ok ()) { steps := 0, result := Except.error 4 }
        { steps := 1, result := Except.ok 8 }).events =
      [ObsEvent.pumpWarn 4] ∧
    (connTask (Except.ok ()) { steps := 1, result := Except.ok 8 }
        { steps := 0, result := Except.error 4 }).events =
      [ObsEvent.pumpWarn 4] ∧
    (connTask (Except.ok ()) { steps := 2, result := Except.error 6 }
        { steps := 3, result := Except.error 7 }).events =
      [ObsEvent.pumpWarn 6] := by
  refine ⟨rfl, ?_, ?_, ?_⟩
  · exact ((claim_C2).2.1 4 8 { steps := 0, result := Except.error 4 }
      { steps := 1, result := Except.ok 8 } rfl rfl).1
  · exact ((claim_C2).2.2.1 4 8 { steps := 1, result := Except.ok 8 }
      { steps := 0, result := Except.error 4 } rfl rfl).1
  · have h := (claim_C2).2.2.2.1 6 7 { steps := 2, result := Except.error 6 }
      { steps := 3, result := Except.error 7 } rfl rfl
    exact (h.1).trans (by decide)

/-- C4: an upstream connect failure terminates only that connection's
unit: the task ends with the connect error (UpstreamUnreachable), emits
no further damage, and the already-accepted client stream — owned by
the task — is dropped, i.e. closed, before the unit returns.  The
surrounding server run is untouched: the accept loop logs the accept,
spawns the other connections' tasks exactly as computed from their own
inputs, and its continuation (the events after the failing connection,
and whether `main` ever returns) is whatever the remaining network
events dictate. -/
theorem claim_C4 (pre post : List NetEvent) (a : Nat) (e : IOErr)
    (p q : Pump) (h : ∀ x ∈ pre, isConn x = true) :
    connTask (Except.error e) p q =
      { events := [], result := Except.error e, clientClosed := true } ∧
    serverRun (Except.ok ())
        (pre ++ NetEvent.conn a (Except.error e) p q :: post) =
      { log := pre.map acceptLogOf ++
          ObsEvent.accepted a :: (acceptLoop post).log,
        tasks := pre.map spawnedTaskOf ++
          connTask (Except.error e) p q :: (acceptLoop post).tasks,
        main := (acceptLoop post).main } := by
  refine ⟨rfl, ?_⟩
  have hall := acceptLoop_append_conns pre
    (NetEvent.conn a (Except.error e) p q :: post) h
  show acceptLoop (pre ++ NetEvent.conn a (Except.error e) p q :: post) = _
  rw [hall]
  simp [acceptLoop]

/-- C4 witness: one failing connection with nothing around it. -/
theorem claim_C4_witness :
    (∀ x ∈ ([] : List NetEvent), isConn x = true) ∧
    serverRun (Except.ok ())
        ([] ++ NetEvent.conn 3 (Except.error 5)
          { steps := 0, result := Except.ok 0 }
          { steps := 0, result := Except.ok 0 } :: []) =
      { log := ([] : List NetEvent).map acceptLogOf ++
          ObsEvent.accepted 3 :: (acceptLoop []).log,
        tasks := ([] : List NetEvent).map spawnedTaskOf ++
          connTask (Except.error 5) { steps := 0, result := Except.ok 0 }
            { steps := 0, result := Except.ok 0 } :: (acceptLoop []).tasks,
        main := (acceptLoop []).main } :=
  ⟨by decide,
    (claim_C4 [] [] 3 5 { steps := 0, result := Except.ok 0 }
      { steps := 0, result := Except.ok 0 } (by decide)).2⟩

/-- C7: the very first accept error ends the whole server: the loop
returns the error out of `main` (regardless of how transient the error
is — nothing inspects it), having logged and dispatched exactly the
connections accepted before the error; everything after it is never
accepted. -/
theorem claim_C7 (pre rest : List NetEvent) (e : IOErr)
    (h : ∀ x ∈ pre, isConn x = true) :
    serverRun (Except.ok ()) (pre ++ NetEvent.aerr e :: rest) =
      { log := pre.map acceptLogOf,
        tasks := pre.map spawnedTaskOf,
        main := MainResult.returned (Except.error e) } := by
  have hall := acceptLoop_append_conns pre (NetEvent.aerr e :: rest) h
  show acceptLoop (pre ++ NetEvent.aerr e :: rest) = _
  rw [hall]
  simp [acceptLoop]

/-- C7 witness: an accept error with no connections before it
terminates the server at once. -/
theorem claim_C7_witness :
    (∀ x ∈ ([] : List NetEvent), isConn x = true) ∧
    serverRun (Except.ok ()) ([] ++ NetEvent.aerr 9 :: []) =
      { log := ([] : List NetEvent).map acceptLogOf,
        tasks := ([] : List NetEvent).map spawnedTaskOf,
        main := MainResult.returned (Except.error 9) } :=
  ⟨by decide, claim_C7 [] [] 9 (by decide)⟩

/-- C8: `Start(config)` never returns on success and fails with the
bind error when binding fails.  A bind failure returns the error before
any connection is accepted (empty log, no tasks).  While accepts keep
succeeding the loop never returns.  And on no input whatsoever does
`main` return `Ok` — its only exits are the bind `?` and the accept
`?`, both errors. -/
theorem claim_C8 :
    (∀ (e : IOErr) (net : List NetEvent),
        serverRun (Except.error e) net =
          { log := [], tasks := [],
            main := MainResult.returned (Except.error e) }) ∧
    (∀ net : List NetEvent, (∀ x ∈ net, isConn x = true) →
        (serverRun (Except.ok ()) net).main = MainResult.running) ∧
    (∀ (b : Except IOErr Unit) (net : List NetEvent),
        (serverRun b net).main ≠ MainResult.returned (Except.ok ())) := by
  refine ⟨fun e net => rfl, ?_, ?_⟩
  · intro net h
    induction net with
    | nil => rfl
    | cons x rest ih =>
        cases x with
        | conn a c p q =>
            have hr := ih (fun z hz => h z (List.mem_cons_of_mem _ hz))
            simp only [serverRun, acceptLoop] at hr ⊢
            exact hr
        | aerr e2 =>
            have hx := h _ (List.mem_cons_self _ _)
            simp [isConn] at hx
  · intro b net
    cases b with
    | error e => simp [serverRun]
    | ok u =>
        cases u
        show (acceptLoop net).main ≠ _
        induction net with
        | nil => simp [acceptLoop]
        | cons x rest ih =>
            cases x with
            | conn a c p q => simpa [acceptLoop] using ih
            | aerr e2 => simp [acceptLoop]

/-- C8 witness: a failed bind returns that error with nothing accepted;
a run of successful accepts leaves the server still running. -/
theorem claim_C8_witness :
    serverRun (Except.error 2) [] =
      { log := [], tasks := [],
        main := MainResult.returned (Except.error 2) } ∧
    (∀ x ∈ ([NetEvent.conn 0 (Except.ok ())
        { steps := 0, result := Except.ok 0 }
        { steps := 0, result := Except.ok 0 }] : List NetEvent),
      isConn x = true) ∧
    (serverRun (Except.ok ()) [NetEvent.conn 0 (Except.ok ())
        { steps := 0, result := Except.ok 0 }
        { steps := 0, result := Except.ok 0 }]).main =
      MainResult.running := by
  refine ⟨(claim_C8).1 2 [], by decide, (claim_C8).2.1 _ (by decide)⟩
